import Mathlib

/-!
Verification of the rpt2pnp pick-and-place G-code generator
(`gcode-picknplace.cc`): the feed configuration loader (`ParseConfig`),
the tape-reel slot allocator, and the per-part toolpath generation
(`PrintPart`), with the surrounding run framing (`Init`, `Finish`).

Coordinates and angles are modelled as exact rationals (the C code uses
floating point; none of the verified properties depend on rounding).
The textual G-code templates are opaque per the spec: a command block is
modelled as its ordered parameter set (an inductive value), not as the
formatted string.
-/

namespace PickNPlace

/-- C `fmod`-style truncation toward zero of a rational. -/
def rtrunc (q : ℚ) : ℤ := if 0 ≤ q then ⌊q⌋ else ⌈q⌉

/-- C `fmod a b = a - b * trunc (a / b)`: remainder with the sign of `a`. -/
def fmod (a b : ℚ) : ℚ := a - b * (rtrunc (a / b) : ℚ)

/-- `#define Z_HOVERING 10` — hover clearance while transporting a component. -/
def Z_HOVERING : ℚ := 10

/-- `#define TAPE_TO_BOARD_DIFFZ -2.0` — placement depth offset from slot z. -/
def TAPE_TO_BOARD_DIFFZ : ℚ := -2

/-- `#define ANGLE_FACTOR (50.34965 / 360)` — degrees-to-axis-units factor `K`. -/
def ANGLE_FACTOR : ℚ := (5034965 / 100000) / 360

/-- Modelled from the spec: the `Tape` class lives in `tape.h`, which is not
among the sources; only its call sites are. Per spec section 3 a reel holds a
3D `origin` of slot 0, a 2D `spacing` between consecutive slots, an `angle`
(reel orientation in degrees), a declared `capacity`, and a monotonic `cursor`
counting slots already dispensed, starting at 0. -/
structure Tape where
  ox : ℚ := 0
  oy : ℚ := 0
  oz : ℚ := 0
  sx : ℚ := 0
  sy : ℚ := 0
  angle : ℚ := 0
  capacity : ℕ := 0
  cursor : ℕ := 0
  deriving Repr, DecidableEq

instance : Inhabited Tape := ⟨{}⟩

/-- `Tape::SetFirstComponentPosition(x, y, z)` (spec: sets the reel origin). -/
def Tape.SetFirstComponentPosition (t : Tape) (x y z : ℚ) : Tape :=
  { t with ox := x, oy := y, oz := z }

/-- `Tape::SetComponentSpacing(x, y)` (spec: sets the reel spacing). -/
def Tape.SetComponentSpacing (t : Tape) (x y : ℚ) : Tape :=
  { t with sx := x, sy := y }

/-- `Tape::SetAngle(a)` (spec: sets the reel orientation in degrees). -/
def Tape.SetAngle (t : Tape) (a : ℚ) : Tape := { t with angle := a }

/-- `Tape::SetNumberComponents(n)` (spec: sets the reel capacity; the caller
passes a C `int`). -/
def Tape.SetNumberComponents (t : Tape) (n : ℤ) : Tape :=
  { t with capacity := n.toNat }

/-- Modelled from the spec: `Tape::GetNextPos` (`NextPosition`, spec section
4.2). Computes slot `cursor` as `origin + cursor * spacing` elementwise on
x/y with z held at `origin.z`, increments the cursor and returns the
position; if the reel is exhausted it returns `none` and mutates nothing. -/
def Tape.GetNextPos (t : Tape) : Option (ℚ × ℚ × ℚ) × Tape :=
  if t.cursor < t.capacity then
    (some (t.ox + (t.cursor : ℚ) * t.sx, t.oy + (t.cursor : ℚ) * t.sy, t.oz),
     { t with cursor := t.cursor + 1 })
  else
    (none, t)

/-- One configuration line as the loader observes it: the first
whitespace-delimited token, the remaining whitespace tokens of the payload
(consumed by `Tape:`), the successive floats an `sscanf` `%f`-scan of the
payload yields, and the integer a `%d`-scan yields, when it succeeds. -/
structure Line where
  token : String
  names : List String := []
  nums : List ℚ := []
  int0 : Option ℤ := none
  deriving Repr, DecidableEq

/-- `GCodePickNPlace::Config`: the board origin plus the component-key to
tape mapping. Tapes are kept in an arena (`tapes`); the map stores indices
into it, so aliased keys share one mutable reel exactly as the C++ map of
`Tape*` does. The association list is prepended on insert and searched
front-first, giving `std::map` overwrite semantics. -/
structure Config where
  board_x : ℚ := 0
  board_y : ℚ := 0
  tapes : List Tape := []
  assign : List (String × ℕ) := []
  deriving Repr, DecidableEq

/-- Replace the tape at index `i` (the update a mutation through a stored
`Tape*` performs). Out-of-range indices leave the arena unchanged. -/
def modifyTape : List Tape → ℕ → (Tape → Tape) → List Tape
  | [], _, _ => []
  | t :: ts, 0, f => f t :: ts
  | t :: ts, n + 1, f => t :: modifyTape ts n f

/-- One iteration of the `ParseConfig` loop body on a non-EOF line, from
state (config so far, current tape context). `none` models the fatal
`result.reset(NULL)` paths: once the unique_ptr is null the loop exits and
the constructor's `assert(config_)` makes the failure fatal, so no
observable configuration survives. Note the source guards its
angle-parsing branch with a duplicated `"spacing:"` comparison (lines
143-153 of `gcode-picknplace.cc`), so that branch is dead code and an
`angle:` line falls through to the unrecognized-directive case. -/
def parseLine (cfg : Config) (cur : Option ℕ) (l : Line) :
    Option (Config × Option ℕ) :=
  if l.token = "" ∨ l.token.front = '#' then
    some (cfg, cur)
  else if l.token = "Board:" then
    some (cfg, none)
  else if l.token = "Tape:" then
    let idx := cfg.tapes.length
    some ({ cfg with
            tapes := cfg.tapes ++ [{}],
            assign := l.names.foldl (fun m k => (k, idx) :: m) cfg.assign },
          some idx)
  else if l.token = "origin:" then
    match cur with
    | some i =>
      match l.nums with
      | x :: y :: z :: _ =>
        some ({ cfg with
                tapes := modifyTape cfg.tapes i
                  (fun t => t.SetFirstComponentPosition x y z) }, cur)
      | _ => none
    | none =>
      match l.nums with
      | x :: y :: _ => some ({ cfg with board_x := x, board_y := y }, cur)
      | _ => none
  else if l.token = "spacing:" then
    match cur with
    | none => none
    | some i =>
      match l.nums with
      | x :: y :: _ =>
        if x = 0 ∧ y = 0 then none
        else
          some ({ cfg with
                  tapes := modifyTape cfg.tapes i
                    (fun t => t.SetComponentSpacing x y) }, cur)
      | _ => none
  else if l.token = "count:" then
    match cur with
    | none => none
    | some i =>
      match l.int0 with
      | some n =>
        some ({ cfg with
                tapes := modifyTape cfg.tapes i
                  (fun t => t.SetNumberComponents n) }, cur)
      | none => none
  else
    some (cfg, cur)

/-- The `ParseConfig` read loop over the remaining lines. -/
def parseLines : Config → Option ℕ → List Line → Option Config
  | cfg, _, [] => some cfg
  | cfg, cur, l :: ls =>
    match parseLine cfg cur l with
    | none => none
    | some (cfg', cur') => parseLines cfg' cur' ls

/-- `GCodePickNPlace::ParseConfig`: fold the loop body over the input lines
starting from an empty configuration and no tape context. -/
def ParseConfig (ls : List Line) : Option Config :=
  parseLines {} none ls

/-- The `Part` record (declared in `printer.h`, not among the sources); the
fields are exactly those `PrintPart` reads. -/
structure Part where
  component_name : String := ""
  footprint : String := ""
  value : String := ""
  posx : ℚ := 0
  posy : ℚ := 0
  angle : ℚ := 0
  deriving Repr, DecidableEq

/-- The lookup key `part.footprint + "@" + part.value`. -/
def partKey (p : Part) : String := p.footprint ++ "@" ++ p.value

/-- The rotation operand of the pick block: `fmod(tape->angle(), 360.0)`. -/
def pickAngleOperand (tapeAngle : ℚ) : ℚ := fmod tapeAngle 360

/-- The rotation operand of the place block:
`fmod(part.angle - tape->angle() + 360, 360.0)`. -/
def placeAngleOperand (partAngle tapeAngle : ℚ) : ℚ :=
  fmod (partAngle - tapeAngle + 360) 360

/-- A motion-command block, as its ordered parameter set (the G-code
template text is an opaque formatting contract per spec section 6).
`pick`/`place` carry name, x, y, hover z, rotation value, descend z,
final hover z in template order. -/
inductive GOut where
  | preamble
  | pick (name : String) (x y zup a zdown zup2 : ℚ)
  | place (name : String) (x y zup a zdown zup2 : ℚ)
  | postamble
  deriving Repr, DecidableEq

/-- A diagnostic on the error channel (stderr). -/
inductive Diag where
  | noTape (key : String)
  | outOfComponents (key : String)
  deriving Repr, DecidableEq

/-- `GCodePickNPlace::PrintPart`: resolve the key, pull the next slot from
the resolved tape (writing the advanced reel back into the arena, as the
in-place mutation through the stored pointer does), and emit the pick block
followed by the place block. An unknown key or an exhausted reel emits one
diagnostic and nothing else. Returns (new config, stdout blocks, stderr
diagnostics). -/
def PrintPart (cfg : Config) (p : Part) : Config × List GOut × List Diag :=
  let key := partKey p
  match cfg.assign.lookup key with
  | none => (cfg, [], [Diag.noTape key])
  | some i =>
    let t := cfg.tapes.getD i default
    match t.GetNextPos with
    | (none, t') =>
      ({ cfg with tapes := modifyTape cfg.tapes i (fun _ => t') },
       [], [Diag.outOfComponents key])
    | (some (px, py, pz), t') =>
      let cfg' := { cfg with tapes := modifyTape cfg.tapes i (fun _ => t') }
      let name := p.component_name ++ " (" ++ key ++ ")"
      (cfg',
       [GOut.pick name px py (pz + Z_HOVERING)
          (ANGLE_FACTOR * pickAngleOperand t.angle)
          pz (pz + Z_HOVERING),
        GOut.place name (p.posx + cfg.board_x) (p.posy + cfg.board_y)
          (pz + Z_HOVERING)
          (ANGLE_FACTOR * placeAngleOperand p.angle t.angle)
          (pz + TAPE_TO_BOARD_DIFFZ) (pz + Z_HOVERING)],
       [])

/-- Process a list of parts in order, threading the configuration state and
concatenating stdout and stderr in order. -/
def processParts : Config → List Part → Config × List GOut × List Diag
  | cfg, [] => (cfg, [], [])
  | cfg, p :: ps =>
    let r := PrintPart cfg p
    let rest := processParts r.1 ps
    (rest.1, r.2.1 ++ rest.2.1, r.2.2 ++ rest.2.2)

/-- `GCodePickNPlace::Init`: prints the constant preamble once. -/
def Init : List GOut := [GOut.preamble]

/-- `GCodePickNPlace::Finish`: prints the constant postamble once. -/
def Finish : List GOut := [GOut.postamble]

/-- A full run: preamble, the per-part blocks in input order, postamble;
diagnostics go to the separate error channel. -/
def run (cfg : Config) (ps : List Part) : List GOut × List Diag :=
  let r := processParts cfg ps
  (Init ++ r.2.1 ++ Finish, r.2.2)

/-! ### Helper lemmas -/

theorem rtrunc_of_nonneg {q : ℚ} (h : 0 ≤ q) : rtrunc q = ⌊q⌋ := if_pos h

/-- For a non-negative operand, `fmod x 360` is the canonical representative
in `[0, 360)`. -/
theorem fmod360_mem_Ico {x : ℚ} (hx : 0 ≤ x) :
    0 ≤ fmod x 360 ∧ fmod x 360 < 360 := by
  have h0 : (0 : ℚ) ≤ x / 360 := by positivity
  have hq : fmod x 360 = 360 * Int.fract (x / 360) := by
    rw [fmod, rtrunc_of_nonneg h0, Int.fract]
    field_simp
  constructor
  · rw [hq]
    exact mul_nonneg (by norm_num) (Int.fract_nonneg _)
  · rw [hq]
    have h1 := Int.fract_lt_one (x / 360)
    nlinarith
/-- If `GetNextPos` reports exhaustion, the reel is returned unchanged. -/
theorem Tape.getNextPos_none {t : Tape} (h : (t.GetNextPos).1 = none) :
    (t.GetNextPos).2 = t := by
  by_cases hc : t.cursor < t.capacity
  · rw [Tape.GetNextPos, if_pos hc] at h
    simp at h
  · rw [Tape.GetNextPos, if_neg hc]

/-- Writing back the tape already stored at an index is a no-op. -/
theorem modifyTape_self (ts : List Tape) (i : ℕ) :
    modifyTape ts i (fun _ => ts.getD i default) = ts := by
  induction ts generalizing i with
  | nil => rfl
  | cons t ts ih =>
    cases i with
    | zero => rfl
    | succ n => simpa [modifyTape] using ih n

/-- Reading back an in-range modified index. -/
theorem modifyTape_getD (ts : List Tape) (i : ℕ) (f : Tape → Tape)
    (h : i < ts.length) :
    (modifyTape ts i f).getD i default = f (ts.getD i default) := by
  induction ts generalizing i with
  | nil => simp at h
  | cons t ts ih =>
    cases i with
    | zero => rfl
    | succ n =>
      simp only [modifyTape, List.getD_cons_succ]
      exact ih n (by simpa using h)

/-! ### Claim theorems -/

/-- C2, counterexample: the claim quantifies over every real-valued reel
orientation and target angle, but a negative orientation makes the pick
operand `fmod(orientation, 360)` negative (at orientation −10 it is −10),
and target angle 0 with orientation 400 makes the place operand
`fmod(0 − 400 + 360, 360) = −40` negative: C `fmod` keeps the sign of its
first argument, so the operands are not always in `[0, 360)`. -/
theorem angle_operand_negative_cex :
    pickAngleOperand (-10) = -10 ∧ pickAngleOperand (-10) < 0 ∧
    placeAngleOperand 0 400 = -40 ∧ placeAngleOperand 0 400 < 0 := by
  have h1 : pickAngleOperand (-10) = -10 := by
    rw [pickAngleOperand, fmod, rtrunc]
    norm_num
  have h2 : placeAngleOperand 0 400 = -40 := by
    rw [placeAngleOperand, fmod, rtrunc]
    norm_num
  exact ⟨h1, by rw [h1]; norm_num, h2, by rw [h2]; norm_num⟩

/-- C2, amended: whenever the reel orientation is non-negative and
`target_angle − orientation + 360` is non-negative, both rotation operands —
the pick operand `fmod(orientation, 360)` and the place operand
`fmod(target_angle − orientation + 360, 360)` — are non-negative and
strictly less than 360 before multiplication by the calibration factor. -/
theorem angle_operands_in_range (o a : ℚ) (ho : 0 ≤ o)
    (ha : 0 ≤ a - o + 360) :
    (0 ≤ pickAngleOperand o ∧ pickAngleOperand o < 360) ∧
    (0 ≤ placeAngleOperand a o ∧ placeAngleOperand a o < 360) :=
  ⟨fmod360_mem_Ico ho, fmod360_mem_Ico ha⟩

/-- C2, witness: orientation 370 and target angle 10 satisfy the amended
hypotheses, and both operands land in `[0, 360)` (the pick operand is 10). -/
theorem angle_operands_in_range_witness :
    ((0 ≤ pickAngleOperand 370 ∧ pickAngleOperand 370 < 360) ∧
     (0 ≤ placeAngleOperand 10 370 ∧ placeAngleOperand 10 370 < 360)) ∧
    pickAngleOperand 370 = 10 := by
  refine ⟨angle_operands_in_range 370 10 (by norm_num) (by norm_num), ?_⟩
  rw [pickAngleOperand, fmod, rtrunc]
  norm_num

/-- The demonstration reel of C3: origin (0,0,5), spacing (4,0),
capacity 3, fresh cursor. -/
def reel3 : Tape := { oz := 5, sx := 4, capacity := 3 }

/-- C3: with origin `o`, spacing `s`, capacity `n` and cursor `c`, a reel
with `c < n` dispenses `(o.x + c·s.x, o.y + c·s.y, o.z)` and advances the
cursor to `c + 1`; with `c = n` it reports exhaustion and mutates nothing.
Concretely, the reel with origin (0,0,5), spacing (4,0) and capacity 3
yields (0,0,5), (4,0,5), (8,0,5) on three successive calls, and a fourth
call is exhausted with the cursor still at 3. -/
theorem next_position_dispenses (t : Tape) :
    (t.cursor < t.capacity →
      t.GetNextPos = (some (t.ox + (t.cursor : ℚ) * t.sx,
                            t.oy + (t.cursor : ℚ) * t.sy, t.oz),
                      { t with cursor := t.cursor + 1 })) ∧
    (t.cursor = t.capacity → t.GetNextPos = (none, t)) ∧
    ((reel3.GetNextPos).1 = some (0, 0, 5) ∧
     ((reel3.GetNextPos).2.GetNextPos).1 = some (4, 0, 5) ∧
     (((reel3.GetNextPos).2.GetNextPos).2.GetNextPos).1 = some (8, 0, 5) ∧
     ((((reel3.GetNextPos).2.GetNextPos).2.GetNextPos).2.GetNextPos).1 =
       none ∧
     ((((reel3.GetNextPos).2.GetNextPos).2.GetNextPos).2.GetNextPos).2.cursor
       = 3) := by
  refine ⟨fun h => ?_, fun h => ?_, ?_⟩
  · rw [Tape.GetNextPos, if_pos h]
  · rw [Tape.GetNextPos, if_neg (by omega)]
  · norm_num [reel3, Tape.GetNextPos]

/-- C3, witness: the first call on the demonstration reel, through the
general dispensing theorem. -/
theorem next_position_dispenses_witness :
    reel3.GetNextPos = (some (0, 0, 5), { reel3 with cursor := 1 }) := by
  have h := (next_position_dispenses reel3).1 (by norm_num [reel3])
  rw [h]
  norm_num [reel3]

/-- C9: the lookup key is the bare concatenation
`footprint ++ "@" ++ value`, so the distinct identity pairs
(footprint "a@b", value "c") and (footprint "a", value "b@c") produce the
same key "a@b@c" and hence resolve identically in every configuration's
key-to-reel mapping. -/
theorem key_collision_same_feed :
    partKey { footprint := "a@b", value := "c" } = "a@b@c" ∧
    partKey { footprint := "a", value := "b@c" } = "a@b@c" ∧
    ∀ cfg : Config,
      cfg.assign.lookup (partKey { footprint := "a@b", value := "c" }) =
        cfg.assign.lookup (partKey { footprint := "a", value := "b@c" }) := by
  have h1 : partKey { footprint := "a@b", value := "c" } = "a@b@c" := by decide
  have h2 : partKey { footprint := "a", value := "b@c" } = "a@b@c" := by decide
  exact ⟨h1, h2, fun cfg => by rw [h1, h2]⟩

/-- C5: a request whose key has no bound reel, or whose resolved reel is
exhausted, produces exactly one diagnostic on the error channel and no
motion output, leaves the whole configuration (board origin, key-to-reel
mapping, every reel) unchanged, and the remaining requests are processed
exactly as they would have been without it. -/
theorem placement_failure_skipped (cfg : Config) (p : Part) (ps : List Part)
    (h : cfg.assign.lookup (partKey p) = none ∨
         ∃ i, cfg.assign.lookup (partKey p) = some i ∧
              ((cfg.tapes.getD i default).GetNextPos).1 = none) :
    ∃ d : Diag, PrintPart cfg p = (cfg, [], [d]) ∧
      processParts cfg (p :: ps) =
        ((processParts cfg ps).1,
         (processParts cfg ps).2.1,
         d :: (processParts cfg ps).2.2) := by
  have hpp : ∃ d : Diag, PrintPart cfg p = (cfg, [], [d]) := by
    rcases h with hnone | ⟨i, hi, hex⟩
    · exact ⟨Diag.noTape (partKey p), by simp only [PrintPart, hnone]⟩
    · refine ⟨Diag.outOfComponents (partKey p), ?_⟩
      have ht' : ((cfg.tapes.getD i default).GetNextPos).2 =
          cfg.tapes.getD i default := Tape.getNextPos_none hex
      have hpair : (cfg.tapes.getD i default).GetNextPos =
          (none, cfg.tapes.getD i default) := Prod.ext hex ht'
      simp only [PrintPart, hi, hpair, modifyTape_self]
  obtain ⟨d, hd⟩ := hpp
  refine ⟨d, hd, ?_⟩
  simp [processParts, hd]

/-- C5, witness: with an empty configuration the empty part's key "@" is
unbound, so the request is skipped with one diagnostic and the (empty)
remaining requests are unaffected. -/
theorem placement_failure_skipped_witness :
    ∃ d : Diag, PrintPart {} {} = ({}, [], [d]) ∧
      processParts {} [{}] =
        ((processParts {} []).1,
         (processParts {} []).2.1,
         d :: (processParts {} []).2.2) :=
  placement_failure_skipped {} {} [] (Or.inl (by decide))

/-- C7: for an accepted request, the place block's hover coordinate is
`(target.x + board_origin.x, target.y + board_origin.y)`, at the same hover
height the pick block uses — the slot z (the reel origin's z) plus the
fixed clearance `Z_HOVERING = 10`. -/
theorem place_hover_composition (cfg : Config) (p : Part) (i : ℕ)
    (hk : cfg.assign.lookup (partKey p) = some i)
    (hc : (cfg.tapes.getD i default).cursor <
          (cfg.tapes.getD i default).capacity) :
    ∃ nm px py apick aplace,
      (PrintPart cfg p).2.1 =
        [GOut.pick nm px py ((cfg.tapes.getD i default).oz + Z_HOVERING)
           apick (cfg.tapes.getD i default).oz
           ((cfg.tapes.getD i default).oz + Z_HOVERING),
         GOut.place nm (p.posx + cfg.board_x) (p.posy + cfg.board_y)
           ((cfg.tapes.getD i default).oz + Z_HOVERING) aplace
           ((cfg.tapes.getD i default).oz + TAPE_TO_BOARD_DIFFZ)
           ((cfg.tapes.getD i default).oz + Z_HOVERING)] := by
  have hnext : (cfg.tapes.getD i default).GetNextPos =
      (some ((cfg.tapes.getD i default).ox +
               ((cfg.tapes.getD i default).cursor : ℚ) *
                 (cfg.tapes.getD i default).sx,
             (cfg.tapes.getD i default).oy +
               ((cfg.tapes.getD i default).cursor : ℚ) *
                 (cfg.tapes.getD i default).sy,
             (cfg.tapes.getD i default).oz),
       { cfg.tapes.getD i default with
           cursor := (cfg.tapes.getD i default).cursor + 1 }) := by
    rw [Tape.GetNextPos, if_pos hc]
  refine ⟨p.component_name ++ " (" ++ partKey p ++ ")",
          (cfg.tapes.getD i default).ox +
            ((cfg.tapes.getD i default).cursor : ℚ) *
              (cfg.tapes.getD i default).sx,
          (cfg.tapes.getD i default).oy +
            ((cfg.tapes.getD i default).cursor : ℚ) *
              (cfg.tapes.getD i default).sy,
          ANGLE_FACTOR * pickAngleOperand (cfg.tapes.getD i default).angle,
          ANGLE_FACTOR * placeAngleOperand p.angle
            (cfg.tapes.getD i default).angle, ?_⟩
  simp only [PrintPart, hk, hnext]

/-- Demonstration configuration for C7: board origin (100, 200) and one
reel, bound to the key "f@v", with origin (0, 0, 0). -/
def cfgW : Config :=
  { board_x := 100, board_y := 200,
    tapes := [{ sx := 4, capacity := 1 }],
    assign := [("f@v", 0)] }

/-- Demonstration part for C7: footprint "f", value "v", target (5, 5). -/
def partW : Part :=
  { component_name := "R1", footprint := "f", value := "v",
    posx := 5, posy := 5 }

/-- C7, witness: target (5, 5) with board origin (100, 200) yields the
place hover coordinate (105, 205) at hover height 10 (slot z 0 plus the
clearance 10), the same height the pick block uses. -/
theorem place_hover_composition_witness :
    ∃ nm px py apick aplace,
      (PrintPart cfgW partW).2.1 =
        [GOut.pick nm px py 10 apick 0 10,
         GOut.place nm 105 205 10 aplace (-2) 10] := by
  obtain ⟨nm, px, py, apick, aplace, h⟩ :=
    place_hover_composition cfgW partW 0 (by decide) (by decide)
  refine ⟨nm, px, py, apick, aplace, ?_⟩
  rw [h]
  simp [cfgW, partW, Z_HOVERING, TAPE_TO_BOARD_DIFFZ]
  norm_num

theorem lookup_cons_self (k : String) (i : ℕ) (m : List (String × ℕ)) :
    ((k, i) :: m).lookup k = some i := by
  simp [List.lookup]

theorem lookup_cons_ne (k k' : String) (i : ℕ) (m : List (String × ℕ))
    (h : k ≠ k') : ((k', i) :: m).lookup k = m.lookup k := by
  have hb : (k == k') = false := beq_eq_false_iff_ne.mpr h
  simp [List.lookup, hb]

/-- Looking a key up after the `Tape:` binding fold: every listed key maps
to the new tape's index, others keep their previous binding. -/
theorem lookup_foldl_insert (i : ℕ) (ks : List String)
    (m : List (String × ℕ)) (k : String) :
    (ks.foldl (fun m' k' => (k', i) :: m') m).lookup k =
      if k ∈ ks then some i else m.lookup k := by
  induction ks generalizing m with
  | nil => simp
  | cons a as ih =>
    rw [List.foldl_cons, ih]
    by_cases hk : k ∈ as
    · simp [hk]
    · by_cases hak : k = a
      · subst hak
        simp [hk, lookup_cons_self]
      · simp [hk, hak, lookup_cons_ne _ _ _ _ hak]

/-- C6: a `Tape:` line listing several identity keys binds every listed key
to the one new reel (the same arena index), and dispensing through one key
bound to a reel advances the cursor that every key bound to that same index
observes: after the dispatch the aliased key still resolves to the index
and the reel there has its cursor advanced by one. -/
theorem tape_aliasing (cfg : Config) (cur : Option ℕ) (l : Line)
    (htok : l.token = "Tape:") :
    (∃ cfg', parseLine cfg cur l = some (cfg', some cfg.tapes.length) ∧
       ∀ k ∈ l.names, cfg'.assign.lookup k = some cfg.tapes.length) ∧
    (∀ (c : Config) (p : Part) (k2 : String) (i : ℕ),
       c.assign.lookup (partKey p) = some i →
       c.assign.lookup k2 = some i →
       (c.tapes.getD i default).cursor < (c.tapes.getD i default).capacity →
       (PrintPart c p).1.assign.lookup k2 = some i ∧
       ((PrintPart c p).1.tapes.getD i default).cursor =
         (c.tapes.getD i default).cursor + 1) := by
  constructor
  · refine ⟨{ cfg with
              tapes := cfg.tapes ++ [{}],
              assign := l.names.foldl
                (fun m k => (k, cfg.tapes.length) :: m) cfg.assign },
            ?_, ?_⟩
    · rw [parseLine.eq_def, htok]
      rw [if_neg (by decide), if_neg (by decide), if_pos rfl]
    · intro k hk
      simp [lookup_foldl_insert, hk]
  · intro c p k2 i hp hk2 hc
    have hnext : (c.tapes.getD i default).GetNextPos =
        (some ((c.tapes.getD i default).ox +
                 ((c.tapes.getD i default).cursor : ℚ) *
                   (c.tapes.getD i default).sx,
               (c.tapes.getD i default).oy +
                 ((c.tapes.getD i default).cursor : ℚ) *
                   (c.tapes.getD i default).sy,
               (c.tapes.getD i default).oz),
         { c.tapes.getD i default with
             cursor := (c.tapes.getD i default).cursor + 1 }) := by
      rw [Tape.GetNextPos, if_pos hc]
    have hlen : i < c.tapes.length := by
      by_contra hge
      rw [List.getD_eq_default _ _ (by omega)] at hc
      simp [default] at hc
    constructor
    · simp only [PrintPart, hp, hnext]
      exact hk2
    · simp only [PrintPart, hp, hnext]
      rw [modifyTape_getD _ _ _ hlen]

/-- C6, witness: parsing `Tape: k1 k2` from the empty configuration binds
both keys to reel 0, and dispensing a part keyed `k1` (via footprint "k1",
empty value is not used here: the key is `"f@v"`-shaped, so the part uses
footprint "k1" with value folded into the key) advances the cursor seen
through "k2@x". -/
theorem tape_aliasing_witness :
    (∃ cfg', parseLine {} none
        { token := "Tape:", names := ["k1@x", "k2@x"] } =
          some (cfg', some 0) ∧
       ∀ k ∈ ["k1@x", "k2@x"], cfg'.assign.lookup k = some 0) ∧
    ((PrintPart { tapes := [{ capacity := 2 }],
                  assign := [("k1@x", 0), ("k2@x", 0)] }
        { footprint := "k1", value := "x" }).1.assign.lookup "k2@x" =
          some 0 ∧
     ((PrintPart { tapes := [{ capacity := 2 }],
                   assign := [("k1@x", 0), ("k2@x", 0)] }
         { footprint := "k1", value := "x" }).1.tapes.getD 0
           default).cursor = 0 + 1) := by
  have h := tape_aliasing {} none
    { token := "Tape:", names := ["k1@x", "k2@x"] } rfl
  exact ⟨h.1, h.2 { tapes := [{ capacity := 2 }],
                    assign := [("k1@x", 0), ("k2@x", 0)] }
           { footprint := "k1", value := "x" } "k2@x" 0
           (by decide) (by decide) (by decide)⟩

/-- C10: a `Tape:` line silently rebinds an already-bound identity key —
parsing the line succeeds (no configuration failure) and the key afterwards
resolves to the newly created reel; and no successfully parsed non-`Tape:`
line ever changes the key-to-reel mapping, so after construction each key
resolves to the reel of the last `Tape:` block that listed it. -/
theorem tape_rebinding (cfg : Config) (cur : Option ℕ) (l : Line)
    (k : String) (i0 : ℕ)
    (_hbound : cfg.assign.lookup k = some i0)
    (htok : l.token = "Tape:") (hk : k ∈ l.names) :
    (∃ cfg', parseLine cfg cur l = some (cfg', some cfg.tapes.length) ∧
       cfg'.assign.lookup k = some cfg.tapes.length) ∧
    (∀ (c c' : Config) (cu cu' : Option ℕ) (l' : Line),
       l'.token ≠ "Tape:" → parseLine c cu l' = some (c', cu') →
       c'.assign = c.assign) := by
  constructor
  · refine ⟨{ cfg with
              tapes := cfg.tapes ++ [{}],
              assign := l.names.foldl
                (fun m k' => (k', cfg.tapes.length) :: m) cfg.assign },
            ?_, ?_⟩
    · rw [parseLine.eq_def, htok]
      rw [if_neg (by decide), if_neg (by decide), if_pos rfl]
    · simp [lookup_foldl_insert, hk]
  · intro c c' cu cu' l' hne hp
    rw [parseLine.eq_def] at hp
    by_cases h1 : l'.token = "" ∨ l'.token.front = '#'
    · rw [if_pos h1] at hp
      simp only [Option.some.injEq, Prod.mk.injEq] at hp
      rw [← hp.1]
    · rw [if_neg h1] at hp
      by_cases h2 : l'.token = "Board:"
      · rw [if_pos h2] at hp
        simp only [Option.some.injEq, Prod.mk.injEq] at hp
        rw [← hp.1]
      · rw [if_neg h2, if_neg hne] at hp
        by_cases h4 : l'.token = "origin:"
        · rw [if_pos h4] at hp
          cases cu with
          | some i =>
            cases hn : l'.nums with
            | nil => rw [hn] at hp; exact absurd hp (by simp)
            | cons x rest =>
              cases rest with
              | nil => rw [hn] at hp; exact absurd hp (by simp)
              | cons y rest2 =>
                cases rest2 with
                | nil => rw [hn] at hp; exact absurd hp (by simp)
                | cons z rest3 =>
                  rw [hn] at hp
                  simp only [Option.some.injEq, Prod.mk.injEq] at hp
                  rw [← hp.1]
          | none =>
            cases hn : l'.nums with
            | nil => rw [hn] at hp; exact absurd hp (by simp)
            | cons x rest =>
              cases rest with
              | nil => rw [hn] at hp; exact absurd hp (by simp)
              | cons y rest2 =>
                rw [hn] at hp
                simp only [Option.some.injEq, Prod.mk.injEq] at hp
                rw [← hp.1]
        · rw [if_neg h4] at hp
          by_cases h5 : l'.token = "spacing:"
          · rw [if_pos h5] at hp
            cases cu with
            | none => exact absurd hp (by simp)
            | some i =>
              cases hn : l'.nums with
              | nil => rw [hn] at hp; exact absurd hp (by simp)
              | cons x rest =>
                cases rest with
                | nil => rw [hn] at hp; exact absurd hp (by simp)
                | cons y rest2 =>
                  rw [hn] at hp
                  have hp' : (if x = 0 ∧ y = 0 then
                        (none : Option (Config × Option ℕ))
                      else
                        some ({ c with tapes := (modifyTape c.tapes i
                                  fun t => t.SetComponentSpacing x y) },
                              some i)) = some (c', cu') := hp
                  by_cases hz : x = 0 ∧ y = 0
                  · rw [if_pos hz] at hp'
                    exact absurd hp' (by simp)
                  · rw [if_neg hz] at hp'
                    simp only [Option.some.injEq, Prod.mk.injEq] at hp'
                    rw [← hp'.1]
          · rw [if_neg h5] at hp
            by_cases h6 : l'.token = "count:"
            · rw [if_pos h6] at hp
              cases cu with
              | none => exact absurd hp (by simp)
              | some i =>
                cases hn : l'.int0 with
                | none => rw [hn] at hp; exact absurd hp (by simp)
                | some n =>
                  rw [hn] at hp
                  simp only [Option.some.injEq, Prod.mk.injEq] at hp
                  rw [← hp.1]
            · rw [if_neg h6] at hp
              simp only [Option.some.injEq, Prod.mk.injEq] at hp
              rw [← hp.1]

/-- C10, witness: with "k" bound to reel 0, a second `Tape: k` line parses
successfully and rebinds "k" to the new reel 1. -/
theorem tape_rebinding_witness :
    ∃ cfg', parseLine { tapes := [{}], assign := [("k", 0)] } (some 0)
        { token := "Tape:", names := ["k"] } = some (cfg', some 1) ∧
      cfg'.assign.lookup "k" = some 1 :=
  (tape_rebinding { tapes := [{}], assign := [("k", 0)] } (some 0)
    { token := "Tape:", names := ["k"] } "k" 0 (by decide) rfl
    (by decide)).1

/-- C8: the output stream is the preamble once, then the per-request
blocks concatenated in the exact input order (each request's contribution
appended in place, so accepted requests keep their relative input order),
then the postamble once; each request contributes either nothing (a skip,
with one diagnostic) or a pick block immediately followed by its own place
block. -/
theorem output_stream_structure (cfg : Config) (ps : List Part) :
    (run cfg ps).1 =
      GOut.preamble :: ((processParts cfg ps).2.1 ++ [GOut.postamble]) ∧
    (∀ (c : Config) (p : Part) (ps' : List Part),
       (processParts c (p :: ps')).2.1 =
         (PrintPart c p).2.1 ++ (processParts (PrintPart c p).1 ps').2.1) ∧
    (∀ (c : Config) (p : Part),
       ((PrintPart c p).2.1 = [] ∧ (PrintPart c p).2.2.length = 1) ∨
       (∃ nm x y zu a zd x' y' a' zd',
          (PrintPart c p).2.1 =
            [GOut.pick nm x y zu a zd zu,
             GOut.place nm x' y' zu a' zd' zu] ∧
          (PrintPart c p).2.2 = [])) := by
  refine ⟨by simp [run, Init, Finish], by intro c p ps'; simp [processParts],
          ?_⟩
  intro c p
  rcases hl : c.assign.lookup (partKey p) with _ | i
  · left
    simp [PrintPart, hl]
  · rcases hn : (c.tapes.getD i default).GetNextPos with ⟨res, t'⟩
    rcases res with _ | ⟨px, py, pz⟩
    · left
      simp only [PrintPart, hl, hn]
      simp
    · right
      refine ⟨p.component_name ++ " (" ++ partKey p ++ ")", px, py,
              pz + Z_HOVERING,
              ANGLE_FACTOR * pickAngleOperand (c.tapes.getD i default).angle,
              pz, p.posx + c.board_x, p.posy + c.board_y,
              ANGLE_FACTOR * placeAngleOperand p.angle
                (c.tapes.getD i default).angle,
              pz + TAPE_TO_BOARD_DIFFZ, ?_, ?_⟩ <;>
        · simp only [PrintPart, hl, hn]
          try simp

/-- C1: the code never processes an `angle:` directive — the intended
branch is guarded by a duplicated `"spacing:"` comparison and is dead code,
so `angle:` falls through to the silently-ignored unrecognized-directive
case. Parsing a reel block containing `angle: 45` yields exactly the
configuration obtained without that line: the reel's orientation stays at
its constructed default instead of becoming 45. -/
theorem angle_directive_has_no_effect :
    ParseConfig [{ token := "Tape:", names := ["k"] },
                 { token := "angle:", nums := [45] }] =
      ParseConfig [{ token := "Tape:", names := ["k"] }] ∧
    ∃ c, ParseConfig [{ token := "Tape:", names := ["k"] },
                      { token := "angle:", nums := [45] }] = some c ∧
      (c.tapes.getD 0 default).angle = ({} : Tape).angle ∧
      (c.tapes.getD 0 default).angle ≠ 45 :=
  ⟨by decide, { tapes := [{}], assign := [("k", 0)] },
   by decide, by decide, by decide⟩

/-- C4: an `angle:` directive outside any reel context — here also with a
malformed (unparseable) numeric payload — is not a fatal configuration
error as the claim requires: the loader treats `angle:` as an unrecognized
directive (its intended branch is dead code behind a duplicated
`"spacing:"` guard) and still produces a usable configuration. -/
theorem angle_misuse_not_fatal :
    ParseConfig [{ token := "angle:" }] = some {} ∧
    (ParseConfig [{ token := "angle:" }]).isSome = true := by
  constructor <;> decide

end PickNPlace
